import Mathlib

/-!
Verification of the token-cache core of the `cssinjs` repository
(`useCacheToken` and its collaborators).

The source file embedded here is `src/unnamed/part_000` (the
`useCacheToken.tsx` module).  JavaScript objects holding design tokens are
embedded as association lists of `(fieldName, value)` pairs with
first-occurrence-wins lookup; JavaScript `Map`s are embedded the same way.
Functions of the repository that are only declared (not defined) under
`src/` — `flattenToken`, `token2key`, `toStyleStr`, `transformToken`, the
`StyleContext` attribute constants and `useGlobalCache` — are modelled from
the specification and carry a doc comment saying so.  The content hash
(`@emotion/hash`, an external dependency) is kept abstract: definitions that
need it take a function `h : String → String` as a parameter.
-/

namespace CssInJs

/-- A primitive JavaScript value stored in a token object. -/
inductive TVal where
  | str (s : String)
  | num (n : Int)
  | dec (q : ℚ)
  | boolv (b : Bool)
deriving DecidableEq

/-- A JavaScript object holding token fields, embedded as an association
list with first-occurrence-wins lookup. -/
abbrev Token := List (String × TVal)

/-- Property lookup on a token object. -/
def getVal (t : Token) (k : String) : Option TVal :=
  (t.find? fun p => p.1 == k).map Prod.snd

/-- Property lookup that reads a string field, as the source does with
`realToken._tokenKey` (entries produced by the cache-miss computation always
carry the field as a string; see the metadata theorems below). -/
def strField (t : Token) (k : String) : String :=
  match getVal t k with
  | some (TVal.str s) => s
  | _ => ""

/-- One step of `Object.assign(a, b)`: the fields of `b` override those of
`a` in place, and fields of `b` new to `a` are appended. -/
def assign (a b : Token) : Token :=
  (a.map fun p =>
    match getVal b p.1 with
    | some v => (p.1, v)
    | none => p) ++
  b.filter fun p => (getVal a p.1).isNone

/-- `Object.assign({}, ...tokens)` — merge the raw token fragments
left-to-right, later fragments winning (source line 174; the `memoResult`
wrapper is a pure memoisation and does not change the value). -/
def mergedTokens (tokens : List Token) : Token :=
  tokens.foldl assign []

/-- The theme collaborator: a stable id (used in the cache key and for
reference comparison) together with the opaque pure derivation function. -/
structure Theme where
  id : Nat
  getDerivativeToken : Token → Token

/-- Source `getComputedToken` (lines 111-134): derive via the theme, merge
the override on top (override keys win), then apply the optional format
pass. -/
def getComputedToken (originToken : Token) (overrideToken : Token)
    (theme : Theme) (format : Option (Token → Token)) : Token :=
  let derivativeToken := theme.getDerivativeToken originToken
  let mergedDerivativeToken := assign derivativeToken overrideToken
  match format with
  | some f => f mergedDerivativeToken
  | none => mergedDerivativeToken

/-- Modelled from the spec: rendering of one primitive value into the
serialised token string (`flattenToken` is missing from `src/`; the spec
describes the token key as a hash of the token's serialised content). -/
def tvalStr : TVal → String
  | TVal.str s => s
  | TVal.num n => toString n
  | TVal.dec q => toString q
  | TVal.boolv b => toString b

/-- Modelled from the spec: `flattenToken` (missing from `src/`) serialises
a token object's entries, in order, into one string. -/
def flattenToken (t : Token) : String :=
  t.foldl (fun acc p => acc ++ p.1 ++ tvalStr p.2) ""

/-- Modelled from the spec: `token2key` (missing from `src/`) computes the
content hash of the final token content together with the salt ("Compute a
content hash of the final token key + salt"); `h` is the abstract content
hash. -/
def token2key (h : String → String) (t : Token) (salt : String) : String :=
  h (salt ++ "_" ++ flattenToken t)

/-- The `cssVar` option of `Option<DerivativeToken, DesignToken>`
(source lines 58-69).  The source field `prefix` is named `prefixVal`
here. -/
structure CssVar where
  prefixVal : Option String
  unitless : List String
  ignore : List String
  preserve : List String
  key : Option String
deriving DecidableEq

/-- Modelled from the spec: rendering of one value in a CSS-variable
declaration — a token marked `unitless` with a bare numeric value gets no
length-unit suffix, any other bare number is suffixed with `px`. -/
def cssValueStr (unitless : List String) (k : String) : TVal → String
  | TVal.num n => if unitless.contains k then toString n else toString n ++ "px"
  | TVal.dec q => if unitless.contains k then toString q else toString q ++ "px"
  | TVal.str s => s
  | TVal.boolv b => toString b

/-- Modelled from the spec: `transformToken` (missing from `src/`) walks the
derived token; every field not marked `ignore` contributes a CSS-variable
declaration to the emitted text and its token value is replaced by a
`var(...)` reference unless marked `preserve` (which keeps the literal value
while still emitting the declaration); `ignore` fields stay literal and emit
nothing. -/
def transformToken (token : Token) (cv : CssVar) : Token × String :=
  token.foldl
    (fun acc p =>
      if cv.ignore.contains p.1 then (acc.1 ++ [p], acc.2)
      else
        let varName := "--" ++ cv.prefixVal.getD "css" ++ "-" ++ p.1
        let decl := varName ++ ":" ++ cssValueStr cv.unitless p.1 p.2 ++ ";"
        let newVal :=
          if cv.preserve.contains p.1 then p.2
          else TVal.str ("var(" ++ varName ++ ")")
        (acc.1 ++ [(p.1, newVal)], acc.2 ++ decl))
    ([], "")

/-- Source `hashPrefix` (lines 19-22): `'css'` when
`process.env.NODE_ENV` is `'production'`, the visibly different
`'css-dev-only-do-not-override'` otherwise; the build mode is the `prodEnv`
flag. -/
def hashPrefixOf (prodEnv : Bool) : String :=
  if prodEnv then "css" else "css-dev-only-do-not-override"

/-- The hash identifier of source line 214:
`hashPrefix ++ "-" ++ hash tokenKey`. -/
def hashIdOf (h : String → String) (prodEnv : Bool) (tokenKey : String) : String :=
  hashPrefixOf prodEnv ++ "-" ++ h tokenKey

/-- The derivative token before CSS-variable rewriting (source lines
185-187): the custom `getComputedToken` option when supplied, the default
`getComputedToken` pipeline otherwise. -/
def mergedDerivativeOf (mergedToken overrideToken : Token) (theme : Theme)
    (formatToken : Option (Token → Token))
    (computeFn : Option (Token → Token → Theme → Token)) : Token :=
  match computeFn with
  | some c => c mergedToken overrideToken theme
  | none => getComputedToken mergedToken overrideToken theme formatToken

/-- The CSS-variable rewriting step of source lines 190-203: applied only
when the `cssVar` option is present, otherwise the token passes through and
the emitted text is empty. -/
def transformedOf (base : Token) (cv : Option CssVar) : Token × String :=
  match cv with
  | some c => transformToken base c
  | none => (base, "")

/-- The five-component cache value `TokenCacheValue` of source lines
138-144. -/
structure TokenCacheValue where
  token : Token
  hashId : String
  realToken : Token
  cssVarStr : String
  cssVarKey : String
deriving DecidableEq

/-- The cache-miss computation `useCacheTokenHelper` passes to
`useGlobalCache` (source lines 184-224): derive, snapshot `actualToken`,
rewrite to CSS variables when requested, compute the token key over the
derived token before any metadata is attached, attach `_tokenKey`,
`_themeKey` and `_hashId`, and return the five-tuple.  Metadata attachment
is field append, as on a JavaScript object without those fields. -/
def computeTokenEntry (h : String → String) (prodEnv : Bool)
    (mergedToken overrideToken : Token) (theme : Theme)
    (formatToken : Option (Token → Token))
    (computeFn : Option (Token → Token → Theme → Token))
    (salt : String) (cv : Option CssVar) : TokenCacheValue :=
  let base := mergedDerivativeOf mergedToken overrideToken theme formatToken computeFn
  let actualToken := base
  let tp := transformedOf base cv
  let transformed := tp.1
  let cssVarsStr := tp.2
  let tokenKey := token2key h transformed salt
  let token1 := transformed ++ [("_tokenKey", TVal.str tokenKey)]
  let realToken := actualToken ++ [("_tokenKey", TVal.str (token2key h actualToken salt))]
  let themeKey := (cv.bind CssVar.key).getD tokenKey
  let token2 := token1 ++ [("_themeKey", TVal.str themeKey)]
  let hashId := hashIdOf h prodEnv tokenKey
  let token3 := token2 ++ [("_hashId", TVal.str hashId)]
  { token := token3
    hashId := hashId
    realToken := realToken
    cssVarStr := cssVarsStr
    cssVarKey := (cv.bind CssVar.key).getD "" }

/-- The metadata fields attached to the derived token; they are cache
metadata, not semantic token content. -/
def metaKeys : List String := ["_tokenKey", "_themeKey", "_hashId"]

/-- Remove the attached metadata fields, leaving the semantic token
content. -/
def stripMeta (t : Token) : Token :=
  t.filter fun p => decide (p.1 ∉ metaKeys)

/-- The module-level `tokenKeys` registry (source line 72), a
`Map<string, number>` from theme key to global usage count. -/
abbrev TokenRegistry := List (String × Int)

/-- `Map.get` on the registry. -/
def regGet (r : TokenRegistry) (k : String) : Option Int :=
  (r.find? fun p => p.1 == k).map Prod.snd

/-- `Map.set` on the registry: update an existing key in place, append a
new one. -/
def regSet : TokenRegistry → String → Int → TokenRegistry
  | [], k, v => [(k, v)]
  | p :: r, k, v => if p.1 == k then (k, v) :: r else p :: regSet r k v

/-- `Map.delete` on the registry. -/
def regDelete (r : TokenRegistry) (k : String) : TokenRegistry :=
  r.filter fun p => decide (p.1 ≠ k)

/-- Source `recordCleanToken` (lines 73-75): increment the usage count,
starting from zero for an unseen key. -/
def recordCleanToken (r : TokenRegistry) (tokenKey : String) : TokenRegistry :=
  regSet r tokenKey ((regGet r tokenKey).getD 0 + 1)

/-- A `<style>` tag in the document, carrying its `ATTR_TOKEN` attribute
value and the `CSS_IN_JS_INSTANCE` marker. -/
structure StyleTag where
  attrToken : String
  instanceId : String
deriving DecidableEq

/-- Source `removeStyleTags` (lines 77-87): remove every style tag whose
token attribute equals the key and whose instance marker matches. -/
def removeStyleTags (styles : List StyleTag) (key instId : String) : List StyleTag :=
  styles.filter fun s => !(s.attrToken == key && s.instanceId == instId)

/-- Source `TOKEN_THRESHOLD` (line 89). -/
def TOKEN_THRESHOLD : Nat := 0

/-- The decrement step at the head of `cleanTokenStyle` (source line 93):
`tokenKeys.set(tokenKey, (tokenKeys.get(tokenKey) || 0) - 1)`. -/
def decrementKey (r : TokenRegistry) (k : String) : TokenRegistry :=
  regSet r k ((regGet r k).getD 0 - 1)

/-- The `cleanableKeyList` of `cleanTokenStyle` (source lines 95-100): the
keys whose stored count is at or below zero. -/
def cleanableOf (reg1 : TokenRegistry) : List String :=
  (reg1.map Prod.fst).filter fun key => decide ((regGet reg1 key).getD 0 ≤ 0)

/-- The number of keys whose stored count is strictly positive — the keys
the sweep would keep. -/
def liveCountOf (reg1 : TokenRegistry) : Nat :=
  ((reg1.map Prod.fst).filter fun key => decide (0 < (regGet reg1 key).getD 0)).length

/-- Source `cleanTokenStyle` (lines 92-109): decrement the key's count,
collect the keys whose count is at or below zero, and sweep them (deleting
the registry entries and removing their style tags) only when the number of
remaining keys exceeds `TOKEN_THRESHOLD`. -/
def cleanTokenStyle (reg : TokenRegistry) (styles : List StyleTag)
    (tokenKey instId : String) : TokenRegistry × List StyleTag :=
  let reg1 := decrementKey reg tokenKey
  let tokenKeyList := reg1.map Prod.fst
  let cleanableKeyList := cleanableOf reg1
  if TOKEN_THRESHOLD < tokenKeyList.length - cleanableKeyList.length then
    cleanableKeyList.foldl
      (fun acc key => (regDelete acc.1 key, removeStyleTags acc.2 key instId))
      (reg1, styles)
  else (reg1, styles)

/-- Modelled from the spec: the `ATTR_TOKEN` attribute name exported by
`StyleContext` (missing from `src/`), tagging a style tag with its theme
key. -/
def ATTR_TOKEN : String := "data-token-hash"

/-- Modelled from the spec: the `ATTR_MARK` attribute name exported by
`StyleContext` (missing from `src/`), tagging a style tag with its style
id. -/
def ATTR_MARK : String := "data-css-hash"

/-- Modelled from the spec: `toStyleStr` (missing from `src/`).  The SSR
extractor consumes a `plain` flag "controlling whether wrapper markup is
added": with `plain` it returns the raw style text, otherwise it wraps the
same text in style-tag markup carrying the shared attributes plus the token
and mark attributes. -/
def toStyleStr (style : String) (tokenKey styleId : String)
    (attrs : List (String × String)) (plain : Bool) : String :=
  if plain then style
  else
    let allAttrs := attrs ++ [(ATTR_TOKEN, tokenKey), (ATTR_MARK, styleId)]
    let attrStr := String.intercalate " "
      ((allAttrs.filter fun p => !(p.2 == "")).map
        fun p => p.1 ++ "=\"" ++ p.2 ++ "\"")
    "<style " ++ attrStr ++ ">" ++ style ++ "</style>"

/-- The `data-rc-*` attributes that `extract` passes to `toStyleStr`
(source lines 270-273). -/
def extractSharedAttrs : List (String × String) :=
  [("data-rc-order", "prependQueue"), ("data-rc-priority", toString (-999 : Int))]

/-- Source `extract` (lines 253-284): a pure read of a cache entry; `null`
when the entry's style text is empty (JavaScript `!styleStr`), otherwise
the triple of priority `-999`, the real token's `_tokenKey`, and the style
text rendered by `toStyleStr`. -/
def extract (cache : TokenCacheValue) (plain : Bool) :
    Option (Int × String × String) :=
  if cache.cssVarStr = "" then none
  else
    let styleId := strField cache.realToken "_tokenKey"
    let order : Int := -999
    let styleText := toStyleStr cache.cssVarStr cache.cssVarKey styleId
      extractSharedAttrs plain
    some (order, styleId, styleText)

/-- The call the commit-time injection effect of `useCacheTokenHelper`
(source lines 229-247) makes to the style-injection collaborator
`updateCSS`, together with the `ATTR_TOKEN` attribution it sets on the
returned style element. -/
structure UpdateCSSCall where
  cssStr : String
  domKey : String
  priority : Int
  attrToken : String
deriving DecidableEq

/-- The commit-time injection effect (source lines 229-247): when the
`cssVar` option is present and the entry's style text is nonempty, call
`updateCSS` with the entry's style text, the DOM key
`hash("css-variables-" ++ themeKey)` and priority `-999`, then set the
`ATTR_TOKEN` attribute to the theme key; otherwise do nothing. -/
def effectFnCalls (h : String → String) (cv : Option CssVar)
    (e : TokenCacheValue) : Option UpdateCSSCall :=
  if cv.isSome ∧ e.cssVarStr ≠ "" then
    some { cssStr := e.cssVarStr
           domKey := h ("css-variables-" ++ strField e.token "_themeKey")
           priority := -999
           attrToken := strField e.token "_themeKey" }
  else none

/-- The option record of a `useCacheTokenHelper` call (source lines
161-171, with the source defaults `salt = ''` and
`override = EMPTY_OVERRIDE`). -/
structure HookOption where
  salt : String
  override : Token
  formatToken : Option (Token → Token)
  getComputedToken : Option (Token → Token → Theme → Token)
  cssVar : Option CssVar

/-- The argument list of a `useCacheToken` call: `args[0]` is the theme,
then the raw token fragments and the option record. -/
structure HookArgs where
  theme : Theme
  tokens : List Token
  option : HookOption

/-- Modelled from the spec: `useGlobalCache` (missing from `src/`) returns
the value built by the compute function for the encoded key (create on
miss, cached equal value on repeat use), so the value
`useCacheTokenHelper` yields for an argument list is the cache-miss
computation applied to the merged fragments and options (source lines
174-250). -/
def useCacheTokenHelperModel (h : String → String) (prodEnv : Bool)
    (args : HookArgs) : TokenCacheValue :=
  computeTokenEntry h prodEnv (mergedTokens args.tokens) args.option.override
    args.theme args.option.formatToken args.option.getComputedToken
    args.option.salt args.option.cssVar

/-- Source `rerenderTime` (line 286): the polling interval, in
milliseconds, of both the default export's re-render timer and
`PollCacheTokenHelper`. -/
def rerenderTime : Nat := 1000

/-- The module-level mutable state of the polling scheme: the shared
`cacheArgs` cell and the `cachedToken` cell (source lines 288-291). -/
structure ModuleState where
  cacheArgs : Option HookArgs
  cachedToken : TokenCacheValue

/-- The default export (source lines 1423-1440) as a state transition: it
returns the current `cachedToken` unconditionally, and overwrites the
shared `cacheArgs` cell when no arguments were stored yet or when `args[0]`
differs from the stored first argument (the `!==` reference comparison of
the two theme objects is embedded as comparison of their stable ids).  The
`useState`/`useEffect` re-render machinery changes no module state and is
not part of the value. -/
def useCacheTokenRun (args : HookArgs) (st : ModuleState) :
    TokenCacheValue × ModuleState :=
  let needUpdate : Bool :=
    match st.cacheArgs with
    | none => true
    | some old => args.theme.id != old.theme.id
  (st.cachedToken,
   { st with cacheArgs := if needUpdate then some args else st.cacheArgs })

/-- One render of a mounted `PollCacheTokenHelper` (source lines
1442-1459): re-run `useCacheTokenHelper` on the shared `cacheArgs` and
overwrite `cachedToken` with the result; `PollCacheToken` mounts the helper
only once `cacheArgs` is non-null (source line 1464). -/
def pollStep (h : String → String) (prodEnv : Bool) (st : ModuleState) :
    ModuleState :=
  match st.cacheArgs with
  | some args => { st with cachedToken := useCacheTokenHelperModel h prodEnv args }
  | none => st

/-- The semantic payload of the hard-coded `cachedToken` fixture (source
lines 291-1421).  The literal lists a few hundred colour-palette and
dimension fields and nine per-component sub-objects; only a representative
prefix of the scalar fields is transcribed here, as no claim observes the
fixture's field values — the claims observe only that the fixture is a
fixed module-level constant. -/
def fixtureTokenPayload : Token :=
  [("blue", TVal.str "#1677ff"),
   ("purple", TVal.str "#722ED1"),
   ("cyan", TVal.str "#13C2C2"),
   ("green", TVal.str "#52C41A"),
   ("magenta", TVal.str "#EB2F96"),
   ("pink", TVal.str "#eb2f96"),
   ("red", TVal.str "#F5222D"),
   ("orange", TVal.str "#FA8C16"),
   ("yellow", TVal.str "#FADB14"),
   ("volcano", TVal.str "#FA541C"),
   ("geekblue", TVal.str "#2F54EB"),
   ("gold", TVal.str "#FAAD14"),
   ("lime", TVal.str "#A0D911"),
   ("colorPrimary", TVal.str "#0c91bc"),
   ("colorSuccess", TVal.str "#49aa19"),
   ("colorWarning", TVal.str "#d89614"),
   ("colorError", TVal.str "#dc4446"),
   ("colorInfo", TVal.str "#1668dc"),
   ("colorLink", TVal.str "#1668dc"),
   ("colorTextBase", TVal.str "#fff"),
   ("colorBgBase", TVal.str "#23232e"),
   ("fontSize", TVal.num 12),
   ("lineWidth", TVal.num 1),
   ("lineType", TVal.str "solid"),
   ("motionUnit", TVal.dec (1 / 10)),
   ("motionBase", TVal.num 0),
   ("borderRadius", TVal.num 6),
   ("sizeUnit", TVal.num 4),
   ("sizeStep", TVal.num 4),
   ("sizePopupArrow", TVal.num 16),
   ("controlHeight", TVal.num 28),
   ("zIndexBase", TVal.num 0),
   ("zIndexPopupBase", TVal.num 1000),
   ("opacityImage", TVal.num 1),
   ("wireframe", TVal.boolv false),
   ("motion", TVal.boolv false)]

/-- The initial value of the module-level `cachedToken` cell (source lines
291-1421): a hard-coded token fixture whose first component carries the
literal metadata `_tokenKey = "mr2whb"`, `_themeKey = "mr2whb"` and
`_hashId = "css-dev-only-do-not-override-fymbro"`, whose second component
is that hash id, whose third component repeats the payload with only
`_tokenKey` attached, and whose style-text and css-var-key components are
empty. -/
def initCachedToken : TokenCacheValue :=
  { token := fixtureTokenPayload ++
      [("_tokenKey", TVal.str "mr2whb"),
       ("_themeKey", TVal.str "mr2whb"),
       ("_hashId", TVal.str "css-dev-only-do-not-override-fymbro")]
    hashId := "css-dev-only-do-not-override-fymbro"
    realToken := fixtureTokenPayload ++ [("_tokenKey", TVal.str "mr2whb")]
    cssVarStr := ""
    cssVarKey := "" }

/-- The module state at load time: `cacheArgs` is `null` and `cachedToken`
holds the fixture. -/
def initModuleState : ModuleState :=
  { cacheArgs := none, cachedToken := initCachedToken }

/-! ## Helper lemmas -/

theorem getVal_nil (k : String) : getVal [] k = none := rfl

theorem getVal_cons (p : String × TVal) (t : Token) (k : String) :
    getVal (p :: t) k = if p.1 == k then some p.2 else getVal t k := by
  unfold getVal
  cases hpk : p.1 == k <;> simp [List.find?_cons, hpk]

theorem getVal_append (a b : Token) (k : String) :
    getVal (a ++ b) k = (getVal a k).or (getVal b k) := by
  unfold getVal
  rw [List.find?_append]
  cases a.find? fun p => p.1 == k <;> rfl

theorem getVal_eq_none (t : Token) (k : String) (h : ∀ p ∈ t, p.1 ≠ k) :
    getVal t k = none := by
  unfold getVal
  rw [List.find?_eq_none.mpr]
  · rfl
  · intro p hp
    simpa using h p hp

theorem stripMeta_append (a b : Token) :
    stripMeta (a ++ b) = stripMeta a ++ stripMeta b :=
  List.filter_append a b

theorem stripMeta_of_no_meta (t : Token) (h : ∀ p ∈ t, p.1 ∉ metaKeys) :
    stripMeta t = t :=
  List.filter_eq_self.mpr fun p hp => by simpa using h p hp

theorem getVal_meta_of_no_meta (t : Token) (k : String) (hk : k ∈ metaKeys)
    (h : ∀ p ∈ t, p.1 ∉ metaKeys) : getVal t k = none :=
  getVal_eq_none t k fun p hp he => h p hp (he ▸ hk)

theorem length_filter_compl {α : Type} (l : List α) (p : α → Bool) :
    (l.filter p).length + (l.filter fun a => !p a).length = l.length := by
  induction l with
  | nil => rfl
  | cons a l ih =>
      cases h : p a <;> simp [List.filter_cons, h] <;> omega

theorem stringAppend_data (a b : String) : (a ++ b).data = a.data ++ b.data := rfl

theorem stringAppend_right_cancel {a b c : String} (hac : a ++ c = b ++ c) :
    a = b := by
  have hd : a.data ++ c.data = b.data ++ c.data := by
    have := congrArg String.data hac
    simpa [stringAppend_data] using this
  have hab : a.data = b.data := List.append_cancel_right hd
  cases a; cases b; simp_all

theorem stringAppend_left_cancel {a b c : String} (hca : c ++ a = c ++ b) :
    a = b := by
  have hd : c.data ++ a.data = c.data ++ b.data := by
    have := congrArg String.data hca
    simpa [stringAppend_data] using this
  have hab : a.data = b.data := List.append_cancel_left hd
  cases a; cases b; simp_all

theorem getVal_filter_key (b : Token) (k : String) (q : String → Bool) :
    getVal (b.filter fun p => q p.1) k
      = if q k then getVal b k else none := by
  induction b with
  | nil => cases hq : q k <;> simp [getVal_nil]
  | cons p b ih =>
      rw [List.filter_cons]
      by_cases hpk : p.1 = k
      · subst hpk
        cases hp : q p.1 <;> simp [hp, getVal_cons, ih]
      · have hbk : (p.1 == k) = false := by simp [hpk]
        cases hp : q p.1 <;> simp [hp, getVal_cons, hbk, ih]

theorem getVal_map_update (a b : Token) (k : String) :
    getVal (a.map fun p =>
        match getVal b p.1 with
        | some v => (p.1, v)
        | none => p) k
      = match getVal a k with
        | none => none
        | some v => some ((getVal b k).getD v) := by
  induction a with
  | nil => rfl
  | cons p a ih =>
      rw [List.map_cons, getVal_cons]
      have hfst : (match getVal b p.1 with
          | some v => (p.1, v)
          | none => p).1 = p.1 := by
        cases getVal b p.1 <;> rfl
      rw [hfst, getVal_cons]
      cases hpk : p.1 == k
      · simpa using ih
      · have hk : p.1 = k := (beq_iff_eq).mp hpk
        subst hk
        cases hb : getVal b p.1 <;> simp [hb]

theorem getVal_assign (a b : Token) (k : String) :
    getVal (assign a b) k = (getVal b k).or (getVal a k) := by
  unfold assign
  rw [getVal_append, getVal_map_update,
    getVal_filter_key b k fun key => (getVal a key).isNone]
  cases ha : getVal a k <;> cases hb : getVal b k <;> simp [ha, hb]

theorem sweep_foldl (ks : List String) (reg : TokenRegistry)
    (styles : List StyleTag) (instId : String) :
    ks.foldl
        (fun acc key => (regDelete acc.1 key, removeStyleTags acc.2 key instId))
        (reg, styles)
      = (reg.filter fun p => decide (p.1 ∉ ks),
         styles.filter fun s =>
           !(decide (s.attrToken ∈ ks) && (s.instanceId == instId))) := by
  induction ks generalizing reg styles with
  | nil => simp
  | cons k ks ih =>
      rw [List.foldl_cons, ih]
      simp only [Prod.mk.injEq]
      constructor
      · rw [regDelete, List.filter_filter]
        apply List.filter_congr
        intro p _
        simp only [List.mem_cons, not_or]
        cases hpk : decide (p.1 = k) <;> cases hmem : decide (p.1 ∈ ks) <;>
          simp_all
      · rw [removeStyleTags, List.filter_filter]
        apply List.filter_congr
        intro s _
        simp only [List.mem_cons]
        cases h1 : decide (s.attrToken ∈ ks) <;>
          cases h2 : s.attrToken == k <;>
          cases h3 : s.instanceId == instId <;>
          simp_all

theorem cleanable_cover (reg1 : TokenRegistry) (key : String)
    (hmem : key ∈ reg1.map Prod.fst) :
    key ∈ cleanableOf reg1 ↔ (regGet reg1 key).getD 0 ≤ 0 := by
  unfold cleanableOf
  rw [List.mem_filter]
  simp [hmem]

theorem cleanTokenStyle_eq (reg : TokenRegistry) (styles : List StyleTag)
    (tokenKey instId : String) :
    cleanTokenStyle reg styles tokenKey instId
      = (if TOKEN_THRESHOLD < liveCountOf (decrementKey reg tokenKey) then
          ((decrementKey reg tokenKey).filter fun p =>
             decide (0 < (regGet (decrementKey reg tokenKey) p.1).getD 0),
           styles.filter fun s =>
             !(decide (s.attrToken ∈ cleanableOf (decrementKey reg tokenKey)) &&
               (s.instanceId == instId)))
        else (decrementKey reg tokenKey, styles)) := by
  unfold cleanTokenStyle
  have hpred : (fun key => decide (0 < (regGet (decrementKey reg tokenKey) key).getD 0))
      = fun key => !decide ((regGet (decrementKey reg tokenKey) key).getD 0 ≤ 0) := by
    funext key
    by_cases hx : (regGet (decrementKey reg tokenKey) key).getD 0 ≤ 0
    · simp [hx, not_lt.mpr hx]
    · simp [hx, not_le.mp hx]
  have hsum : (cleanableOf (decrementKey reg tokenKey)).length +
      liveCountOf (decrementKey reg tokenKey)
      = ((decrementKey reg tokenKey).map Prod.fst).length := by
    unfold cleanableOf liveCountOf
    rw [hpred]
    exact length_filter_compl ((decrementKey reg tokenKey).map Prod.fst)
      fun key => decide ((regGet (decrementKey reg tokenKey) key).getD 0 ≤ 0)
  have hcond : (TOKEN_THRESHOLD <
        ((decrementKey reg tokenKey).map Prod.fst).length -
          (cleanableOf (decrementKey reg tokenKey)).length)
      ↔ TOKEN_THRESHOLD < liveCountOf (decrementKey reg tokenKey) := by omega
  by_cases hc : TOKEN_THRESHOLD < liveCountOf (decrementKey reg tokenKey)
  · rw [if_pos (hcond.mpr hc), if_pos hc, sweep_foldl]
    simp only [Prod.mk.injEq]
    refine ⟨?_, trivial⟩
    apply List.filter_congr
    intro p hp
    have hmem : p.1 ∈ (decrementKey reg tokenKey).map Prod.fst :=
      List.mem_map_of_mem Prod.fst hp
    have hcover := cleanable_cover (decrementKey reg tokenKey) p.1 hmem
    rw [decide_eq_decide]
    constructor
    · intro hnm
      by_contra hng
      push_neg at hng
      exact hnm (hcover.mpr hng)
    · intro hpos hm
      exact absurd (hcover.mp hm) (not_le.mpr hpos)
  · rw [if_neg (fun hcc => hc (hcond.mp hcc)), if_neg hc]

theorem computeTokenEntry_token (h : String → String) (p : Bool)
    (mt ov : Token) (th : Theme) (fm : Option (Token → Token))
    (cf : Option (Token → Token → Theme → Token)) (salt : String)
    (cv : Option CssVar) :
    (computeTokenEntry h p mt ov th fm cf salt cv).token
      = (transformedOf (mergedDerivativeOf mt ov th fm cf) cv).1
        ++ [("_tokenKey", TVal.str (token2key h
              (transformedOf (mergedDerivativeOf mt ov th fm cf) cv).1 salt))]
        ++ [("_themeKey", TVal.str ((cv.bind CssVar.key).getD (token2key h
              (transformedOf (mergedDerivativeOf mt ov th fm cf) cv).1 salt)))]
        ++ [("_hashId", TVal.str (hashIdOf h p (token2key h
              (transformedOf (mergedDerivativeOf mt ov th fm cf) cv).1 salt)))] :=
  rfl

theorem computeTokenEntry_realToken (h : String → String) (p : Bool)
    (mt ov : Token) (th : Theme) (fm : Option (Token → Token))
    (cf : Option (Token → Token → Theme → Token)) (salt : String)
    (cv : Option CssVar) :
    (computeTokenEntry h p mt ov th fm cf salt cv).realToken
      = mergedDerivativeOf mt ov th fm cf
        ++ [("_tokenKey", TVal.str (token2key h
              (mergedDerivativeOf mt ov th fm cf) salt))] :=
  rfl

theorem computeTokenEntry_hashId (h : String → String) (p : Bool)
    (mt ov : Token) (th : Theme) (fm : Option (Token → Token))
    (cf : Option (Token → Token → Theme → Token)) (salt : String)
    (cv : Option CssVar) :
    (computeTokenEntry h p mt ov th fm cf salt cv).hashId
      = hashIdOf h p (token2key h
          (transformedOf (mergedDerivativeOf mt ov th fm cf) cv).1 salt) :=
  rfl

theorem computeTokenEntry_cssVarStr (h : String → String) (p : Bool)
    (mt ov : Token) (th : Theme) (fm : Option (Token → Token))
    (cf : Option (Token → Token → Theme → Token)) (salt : String)
    (cv : Option CssVar) :
    (computeTokenEntry h p mt ov th fm cf salt cv).cssVarStr
      = (transformedOf (mergedDerivativeOf mt ov th fm cf) cv).2 :=
  rfl

theorem computeTokenEntry_cssVarKey (h : String → String) (p : Bool)
    (mt ov : Token) (th : Theme) (fm : Option (Token → Token))
    (cf : Option (Token → Token → Theme → Token)) (salt : String)
    (cv : Option CssVar) :
    (computeTokenEntry h p mt ov th fm cf salt cv).cssVarKey
      = (cv.bind CssVar.key).getD "" :=
  rfl

theorem stripMeta_meta_singleton (k : String) (v : TVal) (hk : k ∈ metaKeys) :
    stripMeta [(k, v)] = [] := by
  unfold stripMeta
  rw [List.filter_cons]
  simp [hk]

theorem stripMeta_computeTokenEntry (h : String → String) (p : Bool)
    (mt ov : Token) (th : Theme) (fm : Option (Token → Token))
    (cf : Option (Token → Token → Theme → Token)) (salt : String)
    (cv : Option CssVar) :
    stripMeta (computeTokenEntry h p mt ov th fm cf salt cv).token
      = stripMeta (transformedOf (mergedDerivativeOf mt ov th fm cf) cv).1 ∧
    stripMeta (computeTokenEntry h p mt ov th fm cf salt cv).realToken
      = stripMeta (mergedDerivativeOf mt ov th fm cf) := by
  constructor
  · rw [computeTokenEntry_token, stripMeta_append, stripMeta_append,
      stripMeta_append,
      stripMeta_meta_singleton _ _ (by unfold metaKeys; simp),
      stripMeta_meta_singleton _ _ (by unfold metaKeys; simp),
      stripMeta_meta_singleton _ _ (by unfold metaKeys; simp)]
    simp
  · rw [computeTokenEntry_realToken, stripMeta_append,
      stripMeta_meta_singleton _ _ (by unfold metaKeys; simp)]
    simp

/-! ## Claim theorems -/

/-- Claim C1, counterexample: after a single `recordCleanToken "k"`, the
release `cleanTokenStyle "k"` leaves one sweepable key (count `0 ≤ 0`), so
the number of sweepable keys (`1`) exceeds `TOKEN_THRESHOLD = 0` — yet
nothing is swept: the key stays in the registry with count `0` and its
style tag stays in the document, refuting the claim that sweepable keys are
swept exactly when their number exceeds the threshold. -/
theorem cleanTokenStyle_no_sweep_despite_sweepable_key :
    (cleanableOf (decrementKey (recordCleanToken [] "k") "k")).length = 1 ∧
    TOKEN_THRESHOLD < 1 ∧
    cleanTokenStyle (recordCleanToken [] "k")
        [{ attrToken := "k", instanceId := "inst" }] "k" "inst"
      = ([("k", 0)], [{ attrToken := "k", instanceId := "inst" }]) := by
  decide

/-- Claim C1 (amended): a `cleanTokenStyle` call sweeps the keys whose
count is at or below zero exactly when the number of keys with a strictly
positive count — the keys that are NOT sweepable — exceeds
`TOKEN_THRESHOLD = 0`; when it sweeps, exactly the sweepable keys are
deleted from the registry and exactly their matching style tags are
removed, and otherwise the registry keeps every key, including the
just-decremented one. -/
theorem cleanTokenStyle_sweeps_iff_live_keys (reg : TokenRegistry)
    (styles : List StyleTag) (tokenKey instId : String) :
    cleanTokenStyle reg styles tokenKey instId
      = (if TOKEN_THRESHOLD < liveCountOf (decrementKey reg tokenKey) then
          ((decrementKey reg tokenKey).filter fun p =>
             decide (0 < (regGet (decrementKey reg tokenKey) p.1).getD 0),
           styles.filter fun s =>
             !(decide (s.attrToken ∈ cleanableOf (decrementKey reg tokenKey)) &&
               (s.instanceId == instId)))
        else (decrementKey reg tokenKey, styles)) :=
  cleanTokenStyle_eq reg styles tokenKey instId

/-- Claim C8, counterexample: releasing the never-recorded key `"never"` on
an empty registry is not a no-op and is not floored at zero — the registry
afterwards maps `"never"` to the negative count `-1`. -/
theorem cleanTokenStyle_underflow_on_unrecorded_key :
    regGet (cleanTokenStyle [] [] "never" "inst").1 "never" = some (-1) ∧
    (-1 : Int) < 0 := by
  decide

theorem regGet_cons (p : String × Int) (r : TokenRegistry) (k : String) :
    regGet (p :: r) k = if p.1 == k then some p.2 else regGet r k := by
  unfold regGet
  cases hpk : p.1 == k <;> simp [List.find?_cons, hpk]

theorem regGet_regSet_self (r : TokenRegistry) (k : String) (v : Int) :
    regGet (regSet r k v) k = some v := by
  induction r with
  | nil => simp [regSet, regGet_cons]
  | cons p r ih =>
      unfold regSet
      by_cases hpk : p.1 = k
      · rw [if_pos (by simp [hpk]), regGet_cons]
        simp
      · rw [if_neg (by simp [hpk]), regGet_cons, if_neg (by simp [hpk])]
        exact ih

theorem regGet_regSet_other (r : TokenRegistry) (k k' : String) (v : Int)
    (hne : k' ≠ k) : regGet (regSet r k v) k' = regGet r k' := by
  induction r with
  | nil => simp [regSet, regGet_cons, regGet, Ne.symm hne]
  | cons p r ih =>
      unfold regSet
      by_cases hpk : p.1 = k
      · rw [if_pos (by simp [hpk]), regGet_cons, regGet_cons,
          if_neg (by simp [Ne.symm hne]), if_neg (by simp [hpk, Ne.symm hne])]
      · rw [if_neg (by simp [hpk]), regGet_cons, regGet_cons]
        cases hpk' : p.1 == k'
        · simpa using ih
        · rfl

theorem mem_map_fst_regSet (r : TokenRegistry) (k : String) (v : Int)
    (key : String) :
    key ∈ (regSet r k v).map Prod.fst ↔ key ∈ r.map Prod.fst ∨ key = k := by
  induction r with
  | nil => simp [regSet]
  | cons p r ih =>
      unfold regSet
      by_cases hpk : p.1 = k
      · rw [if_pos (by simp [hpk])]
        simp [hpk]
        tauto
      · rw [if_neg (by simp [hpk])]
        simp [ih]
        tauto

theorem regGet_some_mem (r : TokenRegistry) (key : String) (v : Int)
    (h : regGet r key = some v) : (key, v) ∈ r := by
  induction r with
  | nil => simp [regGet] at h
  | cons p r ih =>
      rw [regGet_cons] at h
      by_cases hpk : p.1 = key
      · rw [if_pos (by simp [hpk])] at h
        have hv : p.2 = v := by injection h
        cases p
        simp_all
      · rw [if_neg (by simp [hpk])] at h
        exact List.mem_cons_of_mem _ (ih h)

/-- Claim C8 (amended): releasing a theme key that was never recorded is
not a no-op and is not floored at zero — the decrement stores the negative
count `-1` for that key; in particular, when no key in the registry has a
positive count (so no sweep fires), `cleanTokenStyle` leaves the registry
mapping the never-recorded key to `-1`. -/
theorem cleanTokenStyle_unrecorded_key_stores_negative (reg : TokenRegistry)
    (styles : List StyleTag) (k instId : String)
    (h1 : regGet reg k = none) (h2 : ∀ p ∈ reg, p.2 ≤ 0) :
    regGet (decrementKey reg k) k = some (-1) ∧
    regGet (cleanTokenStyle reg styles k instId).1 k = some (-1) := by
  have hdec : decrementKey reg k = regSet reg k (-1) := by
    unfold decrementKey
    rw [h1]
    norm_num
  have hneg : regGet (decrementKey reg k) k = some (-1) := by
    rw [hdec]
    exact regGet_regSet_self reg k (-1)
  refine ⟨hneg, ?_⟩
  have hlive : liveCountOf (decrementKey reg k) = 0 := by
    unfold liveCountOf
    rw [List.length_eq_zero, List.filter_eq_nil_iff]
    intro key hkey
    simp only [decide_eq_true_eq, not_lt]
    by_cases hk : key = k
    · subst hk
      rw [hneg]
      norm_num
    · rw [hdec, regGet_regSet_other reg k key (-1) hk]
      cases hg : regGet reg key with
      | none => simp
      | some v =>
          have := h2 (key, v) (regGet_some_mem reg key v hg)
          simpa using this
  rw [cleanTokenStyle_eq,
    if_neg (by rw [hlive]; unfold TOKEN_THRESHOLD; omega)]
  exact hneg

/-- Claim C8, witness: the amended theorem at the concrete never-recorded
key `"never"` on the empty registry. -/
theorem cleanTokenStyle_unrecorded_key_stores_negative_witness :
    regGet ([] : TokenRegistry) "never" = none ∧
    regGet (cleanTokenStyle [] [] "never" "i").1 "never" = some (-1) :=
  ⟨rfl,
    (cleanTokenStyle_unrecorded_key_stores_negative [] [] "never" "i" rfl
      (fun p hp => by simp at hp)).2⟩

/-- Claim C10: the hash identifier is the content hash of the token key
prefixed with `css` in production builds and with the visibly different
`css-dev-only-do-not-override` in non-production builds, and — the two
prefixes having different lengths — the two build modes never produce the
same identifier for the same token key; the cache-miss computation's
`hashId` is exactly this identifier for its computed token key. -/
theorem hashId_prefix_distinguishes_builds :
    (∀ h : String → String, ∀ k, hashIdOf h true k = "css" ++ "-" ++ h k) ∧
    (∀ h : String → String, ∀ k,
      hashIdOf h false k = "css-dev-only-do-not-override" ++ "-" ++ h k) ∧
    (∀ h : String → String, ∀ k, hashIdOf h true k ≠ hashIdOf h false k) ∧
    (∀ h : String → String, ∀ p mt ov th fm cf salt cv,
      (computeTokenEntry h p mt ov th fm cf salt cv).hashId
        = hashIdOf h p (token2key h
            (transformedOf (mergedDerivativeOf mt ov th fm cf) cv).1 salt)) := by
  refine ⟨fun h k => rfl, fun h k => rfl, ?_, fun h p mt ov th fm cf salt cv => rfl⟩
  intro h k heq
  have e1 : hashIdOf h true k = "css" ++ "-" ++ h k := rfl
  have e2 : hashIdOf h false k = "css-dev-only-do-not-override" ++ "-" ++ h k := rfl
  rw [e1, e2] at heq
  have hlen := congrArg String.length heq
  rw [String.length_append, String.length_append,
    String.length_append, String.length_append] at hlen
  have h1 : ("css" : String).length = 3 := rfl
  have h2 : ("css-dev-only-do-not-override" : String).length = 28 := rfl
  rw [h1, h2] at hlen
  omega

/-- The spec-side token-derivation pipeline, written from the
specification's words: "merge all raw fragments left-to-right (later
fragments win on key conflicts) into one token object; invoke the theme's
opaque derivation to get a base derivative token; shallow-merge the
override object on top; optionally apply a caller-supplied reformatting
pass". -/
def deriveSpecTokens (tokens : List Token) (overrideToken : Token)
    (theme : Theme) (formatToken : Option (Token → Token)) : Token :=
  let merged := tokens.foldl assign []
  let baseDerivative := theme.getDerivativeToken merged
  let withOverride := assign baseDerivative overrideToken
  match formatToken with
  | some f => f withOverride
  | none => withOverride

/-- Claim C6: on the default path (no custom compute function) the derived
token of the source pipeline — `Object.assign({}, ...tokens)` merged
left-to-right, `theme.getDerivativeToken`, override shallow-merged on top,
then the optional `formatToken` — coincides with the spec-side pipeline;
and the shallow merge really is later-wins: a key's value in `assign a b`
is `b`'s when `b` has the key and `a`'s otherwise. -/
theorem derivedToken_matches_spec_pipeline :
    (∀ tokens overrideToken theme formatToken,
      mergedDerivativeOf (mergedTokens tokens) overrideToken theme formatToken none
        = deriveSpecTokens tokens overrideToken theme formatToken) ∧
    (∀ a b k, getVal (assign a b) k = (getVal b k).or (getVal a k)) :=
  ⟨fun _ _ _ _ => rfl, getVal_assign⟩

/-- Claim C9: `extract` is embedded as a pure function of its cache-entry
argument (its purity is by construction — it reads no mutable state); it
returns `null` exactly when the entry's style payload `cssVarStr` is the
empty string — as it is for every entry produced without the `cssVar`
option — and otherwise returns the triple of priority `-999`, the real
token's `_tokenKey`, and the rendered style text. -/
theorem extract_null_iff_no_style_payload :
    (∀ cache plain, (extract cache plain = none ↔ cache.cssVarStr = "")) ∧
    (∀ cache plain, cache.cssVarStr ≠ "" →
      extract cache plain
        = some (-999, strField cache.realToken "_tokenKey",
            toStyleStr cache.cssVarStr cache.cssVarKey
              (strField cache.realToken "_tokenKey") extractSharedAttrs plain)) ∧
    (∀ h : String → String, ∀ p mt ov th fm cf salt plain,
      extract (computeTokenEntry h p mt ov th fm cf salt none) plain = none) := by
  refine ⟨?_, ?_, ?_⟩
  · intro cache plain
    by_cases hce : cache.cssVarStr = "" <;> simp [extract, hce]
  · intro cache plain hne
    unfold extract
    rw [if_neg hne]
  · intro h p mt ov th fm cf salt plain
    have hz : (computeTokenEntry h p mt ov th fm cf salt none).cssVarStr = "" := rfl
    simp [extract, hz]

/-- Claim C9, witness: the characterisation applied to a concrete entry
with nonempty style payload. -/
theorem extract_null_iff_no_style_payload_witness :
    extract { token := [], hashId := "",
              realToken := [("_tokenKey", TVal.str "tk")],
              cssVarStr := "x", cssVarKey := "ck" } true
      = some (-999, "tk", "x") := by
  have hx := extract_null_iff_no_style_payload.2.1
    { token := [], hashId := "", realToken := [("_tokenKey", TVal.str "tk")],
      cssVarStr := "x", cssVarKey := "ck" } true (by decide)
  exact hx

/-- Claim C2: for every argument list the default-exported hook returns the
module-level `cachedToken` cell unchanged — never a value computed from the
arguments; a call only overwrites the shared `cacheArgs` cell (when no
arguments were stored or the first argument differs), and the returned
value changes only when a mounted `PollCacheTokenHelper` render re-runs
`useCacheTokenHelper` on `cacheArgs` and overwrites `cachedToken`, on the
`rerenderTime = 1000` millisecond polling cycle; at module load the cell
holds the hard-coded fixture. -/
theorem useCacheToken_returns_polled_module_cache :
    (∀ args st, (useCacheTokenRun args st).1 = st.cachedToken) ∧
    (∀ args st, ((useCacheTokenRun args st).2).cachedToken = st.cachedToken) ∧
    (∀ args st, st.cacheArgs = none →
      ((useCacheTokenRun args st).2).cacheArgs = some args) ∧
    (∀ args st old, st.cacheArgs = some old → args.theme.id ≠ old.theme.id →
      ((useCacheTokenRun args st).2).cacheArgs = some args) ∧
    (∀ args st old, st.cacheArgs = some old → args.theme.id = old.theme.id →
      ((useCacheTokenRun args st).2).cacheArgs = st.cacheArgs) ∧
    (∀ h : String → String, ∀ p st args, st.cacheArgs = some args →
      pollStep h p st
        = { st with cachedToken := useCacheTokenHelperModel h p args }) ∧
    (∀ args, (useCacheTokenRun args initModuleState).1 = initCachedToken) ∧
    rerenderTime = 1000 := by
  refine ⟨fun args st => rfl, fun args st => ?_, ?_, ?_, ?_, ?_, fun args => rfl, rfl⟩
  · cases st.cacheArgs <;> rfl
  · intro args st h
    simp [useCacheTokenRun, h]
  · intro args st old h hne
    simp [useCacheTokenRun, h, bne_iff_ne, hne]
  · intro args st old h heq
    simp [useCacheTokenRun, h, heq]
  · intro h p st args hargs
    simp [pollStep, hargs]

/-- A concrete theme used by the witnesses. -/
def wTheme : Theme := { id := 0, getDerivativeToken := fun t => t }

/-- A concrete argument list used by the witnesses. -/
def wArgs : HookArgs :=
  { theme := wTheme
    tokens := [[("a", TVal.num 1)]]
    option := { salt := "s", override := [], formatToken := none,
                getComputedToken := none, cssVar := none } }

/-- Claim C2, witness: the hook stores the concrete argument list into the
empty initial state, and the poll step overwrites the cached token from
those stored arguments. -/
theorem useCacheToken_returns_polled_module_cache_witness :
    ((useCacheTokenRun wArgs initModuleState).2).cacheArgs = some wArgs ∧
    pollStep (fun s => s) true
        { cacheArgs := some wArgs, cachedToken := initCachedToken }
      = { cacheArgs := some wArgs,
          cachedToken := useCacheTokenHelperModel (fun s => s) true wArgs } :=
  ⟨useCacheToken_returns_polled_module_cache.2.2.1 wArgs initModuleState rfl,
   useCacheToken_returns_polled_module_cache.2.2.2.2.2.1 (fun s => s) true
     { cacheArgs := some wArgs, cachedToken := initCachedToken } wArgs rfl⟩

/-- Claim C4: the cache-miss computation is deterministic — it is a pure
function of its arguments (the embedding reads no ambient mutable state),
so two runs on identical merged token, override, theme, salt and cssVar
inputs yield the identical token key and hash identifier — and changing
only the salt changes the hash identifier (for an injective content hash)
while leaving the semantic, metadata-stripped token fields of both the
returned token and the real token unchanged. -/
theorem derive_deterministic_and_salt_sensitive
    (h : String → String) (hinj : Function.Injective h) (p : Bool)
    (mt ov : Token) (th : Theme) (fm : Option (Token → Token))
    (cf : Option (Token → Token → Theme → Token)) (cv : Option CssVar)
    (salt salt' : String) (hs : salt ≠ salt') :
    (getVal (computeTokenEntry h p mt ov th fm cf salt cv).token "_tokenKey"
        = getVal (computeTokenEntry h p mt ov th fm cf salt cv).token "_tokenKey"
      ∧ (computeTokenEntry h p mt ov th fm cf salt cv).hashId
        = (computeTokenEntry h p mt ov th fm cf salt cv).hashId) ∧
    (computeTokenEntry h p mt ov th fm cf salt cv).hashId
      ≠ (computeTokenEntry h p mt ov th fm cf salt' cv).hashId ∧
    stripMeta (computeTokenEntry h p mt ov th fm cf salt cv).token
      = stripMeta (computeTokenEntry h p mt ov th fm cf salt' cv).token ∧
    stripMeta (computeTokenEntry h p mt ov th fm cf salt cv).realToken
      = stripMeta (computeTokenEntry h p mt ov th fm cf salt' cv).realToken := by
  refine ⟨⟨rfl, rfl⟩, ?_, ?_, ?_⟩
  · intro heq
    rw [computeTokenEntry_hashId, computeTokenEntry_hashId] at heq
    unfold hashIdOf at heq
    have h2 := stringAppend_left_cancel heq
    have h3 := hinj h2
    unfold token2key at h3
    have h4 := hinj h3
    have h5 := stringAppend_right_cancel h4
    have h6 := stringAppend_right_cancel h5
    exact hs h6
  · rw [(stripMeta_computeTokenEntry h p mt ov th fm cf salt cv).1,
      (stripMeta_computeTokenEntry h p mt ov th fm cf salt' cv).1]
  · rw [(stripMeta_computeTokenEntry h p mt ov th fm cf salt cv).2,
      (stripMeta_computeTokenEntry h p mt ov th fm cf salt' cv).2]

/-- Claim C4, witness: the theorem at the identity hash and the concrete
salts `"a"` and `"b"`. -/
theorem derive_deterministic_and_salt_sensitive_witness :
    Function.Injective (fun s : String => s) ∧ ("a" : String) ≠ "b" ∧
    (computeTokenEntry (fun s => s) true [("x", TVal.num 1)] [] wTheme
        none none "a" none).hashId
      ≠ (computeTokenEntry (fun s => s) true [("x", TVal.num 1)] [] wTheme
        none none "b" none).hashId :=
  ⟨fun _ _ hh => hh, by decide,
   (derive_deterministic_and_salt_sensitive (fun s => s) (fun _ _ hh => hh)
     true [("x", TVal.num 1)] [] wTheme none none none "a" "b" (by decide)).2.1⟩

/-- Claim C5: the token key (and the hash identifier derived from it) is
computed over the token before any metadata field is attached: provided the
pre-metadata tokens carry none of the metadata field names, the `_tokenKey`
attached to both the returned token and the real token equals `token2key`
of the respective token with the metadata fields stripped, and the hash
identifier hashes that metadata-free token key — so `_tokenKey`,
`_themeKey` and `_hashId` are excluded from every content hash. -/
theorem metadata_excluded_from_content_hash
    (h : String → String) (p : Bool) (mt ov : Token) (th : Theme)
    (fm : Option (Token → Token)) (cf : Option (Token → Token → Theme → Token))
    (salt : String) (cv : Option CssVar)
    (ha : ∀ q ∈ mergedDerivativeOf mt ov th fm cf, q.1 ∉ metaKeys)
    (hb : ∀ q ∈ (transformedOf (mergedDerivativeOf mt ov th fm cf) cv).1,
      q.1 ∉ metaKeys) :
    getVal (computeTokenEntry h p mt ov th fm cf salt cv).token "_tokenKey"
      = some (TVal.str (token2key h
          (stripMeta (computeTokenEntry h p mt ov th fm cf salt cv).token) salt)) ∧
    getVal (computeTokenEntry h p mt ov th fm cf salt cv).realToken "_tokenKey"
      = some (TVal.str (token2key h
          (stripMeta (computeTokenEntry h p mt ov th fm cf salt cv).realToken) salt)) ∧
    (computeTokenEntry h p mt ov th fm cf salt cv).hashId
      = hashIdOf h p (token2key h
          (stripMeta (computeTokenEntry h p mt ov th fm cf salt cv).token) salt) := by
  have hstripT : stripMeta (computeTokenEntry h p mt ov th fm cf salt cv).token
      = (transformedOf (mergedDerivativeOf mt ov th fm cf) cv).1 := by
    rw [(stripMeta_computeTokenEntry h p mt ov th fm cf salt cv).1]
    exact stripMeta_of_no_meta _ hb
  have hstripR : stripMeta (computeTokenEntry h p mt ov th fm cf salt cv).realToken
      = mergedDerivativeOf mt ov th fm cf := by
    rw [(stripMeta_computeTokenEntry h p mt ov th fm cf salt cv).2]
    exact stripMeta_of_no_meta _ ha
  have hT : getVal (transformedOf (mergedDerivativeOf mt ov th fm cf) cv).1
      "_tokenKey" = none :=
    getVal_meta_of_no_meta _ _ (by unfold metaKeys; simp) hb
  have hB : getVal (mergedDerivativeOf mt ov th fm cf) "_tokenKey" = none :=
    getVal_meta_of_no_meta _ _ (by unfold metaKeys; simp) ha
  refine ⟨?_, ?_, ?_⟩
  · rw [hstripT, computeTokenEntry_token, getVal_append, getVal_append,
      getVal_append, hT]
    simp [getVal_cons]
  · rw [hstripR, computeTokenEntry_realToken, getVal_append, hB]
    simp [getVal_cons]
  · rw [hstripT, computeTokenEntry_hashId]

/-- Claim C5, witness: the theorem at the identity hash and a concrete
metadata-free input token. -/
theorem metadata_excluded_from_content_hash_witness :
    (∀ q ∈ mergedDerivativeOf [("x", TVal.num 1)] [] wTheme none none,
      q.1 ∉ metaKeys) ∧
    getVal (computeTokenEntry (fun s => s) true [("x", TVal.num 1)] [] wTheme
        none none "s" none).token "_tokenKey"
      = some (TVal.str (token2key (fun s => s)
          (stripMeta (computeTokenEntry (fun s => s) true [("x", TVal.num 1)]
            [] wTheme none none "s" none).token) "s")) :=
  ⟨by decide,
   (metadata_excluded_from_content_hash (fun s => s) true [("x", TVal.num 1)]
     [] wTheme none none "s" none (by decide) (by decide)).1⟩

/-- Claim C7: on a cache-miss computation the `_themeKey` attached to the
derived token equals the `cssVar` option's key when one is supplied
(`cssVar?.key`), and equals the attached `_tokenKey` otherwise. -/
theorem themeKey_matches_cssVar_key_or_tokenKey
    (h : String → String) (p : Bool) (mt ov : Token) (th : Theme)
    (fm : Option (Token → Token)) (cf : Option (Token → Token → Theme → Token))
    (salt : String) (cv : Option CssVar)
    (hb : ∀ q ∈ (transformedOf (mergedDerivativeOf mt ov th fm cf) cv).1,
      q.1 ∉ metaKeys) :
    (∀ k0, cv.bind CssVar.key = some k0 →
      getVal (computeTokenEntry h p mt ov th fm cf salt cv).token "_themeKey"
        = some (TVal.str k0)) ∧
    (cv.bind CssVar.key = none →
      getVal (computeTokenEntry h p mt ov th fm cf salt cv).token "_themeKey"
        = getVal (computeTokenEntry h p mt ov th fm cf salt cv).token "_tokenKey") := by
  have hT1 : getVal (transformedOf (mergedDerivativeOf mt ov th fm cf) cv).1
      "_themeKey" = none :=
    getVal_meta_of_no_meta _ _ (by unfold metaKeys; simp) hb
  have hT2 : getVal (transformedOf (mergedDerivativeOf mt ov th fm cf) cv).1
      "_tokenKey" = none :=
    getVal_meta_of_no_meta _ _ (by unfold metaKeys; simp) hb
  have e1 : getVal (computeTokenEntry h p mt ov th fm cf salt cv).token "_themeKey"
      = some (TVal.str ((cv.bind CssVar.key).getD (token2key h
          (transformedOf (mergedDerivativeOf mt ov th fm cf) cv).1 salt))) := by
    rw [computeTokenEntry_token, getVal_append, getVal_append, getVal_append, hT1]
    simp [getVal_cons, getVal_nil]
  have e2 : getVal (computeTokenEntry h p mt ov th fm cf salt cv).token "_tokenKey"
      = some (TVal.str (token2key h
          (transformedOf (mergedDerivativeOf mt ov th fm cf) cv).1 salt)) := by
    rw [computeTokenEntry_token, getVal_append, getVal_append, getVal_append, hT2]
    simp [getVal_cons, getVal_nil]
  constructor
  · intro k0 hk0
    rw [e1, hk0]
    rfl
  · intro hk0
    rw [e1, e2, hk0]
    rfl

/-- A concrete `cssVar` option, carrying the key `"thek"`, used by the
witnesses. -/
def wCssVar : CssVar :=
  { prefixVal := none, unitless := [], ignore := [], preserve := [],
    key := some "thek" }

/-- Claim C7, witness: the theorem at the concrete `cssVar` option carrying
the key `"thek"`. -/
theorem themeKey_matches_cssVar_key_or_tokenKey_witness :
    ((some wCssVar).bind CssVar.key = some "thek") ∧
    getVal (computeTokenEntry (fun s => s) true [("x", TVal.num 1)] [] wTheme
        none none "s" (some wCssVar)).token "_themeKey"
      = some (TVal.str "thek") :=
  ⟨rfl,
   (themeKey_matches_cssVar_key_or_tokenKey (fun s => s) true
     [("x", TVal.num 1)] [] wTheme none none "s" (some wCssVar)
     (by decide)).1 "thek" rfl⟩

theorem toStyleStr_plain (style tokenKey styleId : String)
    (attrs : List (String × String)) :
    toStyleStr style tokenKey styleId attrs true = style := rfl

/-- Claim C3: for a cache entry produced in CSS-variable mode (the `cssVar`
option present with key `k` and a nonempty emitted style text), the
commit-time injection effect passes exactly the entry's style text to
`updateCSS` with priority `-999` and sets the `ATTR_TOKEN` attribution to
the theme key `k`; `extract` on the same entry returns the same priority
`-999`, passes the matching attribution key `k` (the entry's `cssVarKey`)
to the style renderer, and its plain style text is byte-identical to the
injected text — in the non-plain case the identical text is wrapped in the
style-tag markup. -/
theorem extract_matches_injection
    (h : String → String) (p : Bool) (mt ov : Token) (th : Theme)
    (fm : Option (Token → Token)) (cf : Option (Token → Token → Theme → Token))
    (salt : String) (c : CssVar) (k : String)
    (hk : c.key = some k)
    (hb : ∀ q ∈ (transformedOf (mergedDerivativeOf mt ov th fm cf) (some c)).1,
      q.1 ∉ metaKeys)
    (hne : (transformedOf (mergedDerivativeOf mt ov th fm cf) (some c)).2 ≠ "") :
    effectFnCalls h (some c) (computeTokenEntry h p mt ov th fm cf salt (some c))
      = some { cssStr := (computeTokenEntry h p mt ov th fm cf salt (some c)).cssVarStr
               domKey := h ("css-variables-" ++ k)
               priority := -999
               attrToken := k } ∧
    extract (computeTokenEntry h p mt ov th fm cf salt (some c)) true
      = some (-999,
          strField (computeTokenEntry h p mt ov th fm cf salt (some c)).realToken
            "_tokenKey",
          (computeTokenEntry h p mt ov th fm cf salt (some c)).cssVarStr) ∧
    (computeTokenEntry h p mt ov th fm cf salt (some c)).cssVarKey = k ∧
    (∀ plain, extract (computeTokenEntry h p mt ov th fm cf salt (some c)) plain
      = some (-999,
          strField (computeTokenEntry h p mt ov th fm cf salt (some c)).realToken
            "_tokenKey",
          toStyleStr (computeTokenEntry h p mt ov th fm cf salt (some c)).cssVarStr
            k
            (strField (computeTokenEntry h p mt ov th fm cf salt (some c)).realToken
              "_tokenKey")
            extractSharedAttrs plain)) := by
  have hck : (computeTokenEntry h p mt ov th fm cf salt (some c)).cssVarKey = k := by
    rw [computeTokenEntry_cssVarKey]
    simp [hk]
  have hne' : (computeTokenEntry h p mt ov th fm cf salt (some c)).cssVarStr ≠ "" := by
    rw [computeTokenEntry_cssVarStr]
    exact hne
  have hT1 : getVal (transformedOf (mergedDerivativeOf mt ov th fm cf) (some c)).1
      "_themeKey" = none :=
    getVal_meta_of_no_meta _ _ (by unfold metaKeys; simp) hb
  have htheme : strField
      (computeTokenEntry h p mt ov th fm cf salt (some c)).token "_themeKey" = k := by
    unfold strField
    rw [computeTokenEntry_token, getVal_append, getVal_append, getVal_append, hT1]
    simp [getVal_cons, getVal_nil, hk]
  have hext : ∀ plain,
      extract (computeTokenEntry h p mt ov th fm cf salt (some c)) plain
        = some (-999,
            strField (computeTokenEntry h p mt ov th fm cf salt (some c)).realToken
              "_tokenKey",
            toStyleStr (computeTokenEntry h p mt ov th fm cf salt (some c)).cssVarStr
              k
              (strField (computeTokenEntry h p mt ov th fm cf salt (some c)).realToken
                "_tokenKey")
              extractSharedAttrs plain) := by
    intro plain
    unfold extract
    rw [if_neg hne', hck]
  refine ⟨?_, ?_, hck, hext⟩
  · unfold effectFnCalls
    rw [if_pos ⟨rfl, hne'⟩, htheme]
  · rw [hext true, toStyleStr_plain]

/-- Claim C3, witness: the theorem at the identity hash, a concrete
one-field token and the `cssVar` option with key `"thek"`: the extracted
plain style text is the entry's own injected style text. -/
theorem extract_matches_injection_witness :
    (wCssVar.key = some "thek") ∧
    ((transformedOf (mergedDerivativeOf [("a", TVal.num 1)] [] wTheme none none)
        (some wCssVar)).2 ≠ "") ∧
    extract (computeTokenEntry (fun s => s) true [("a", TVal.num 1)] [] wTheme
        none none "s" (some wCssVar)) true
      = some (-999,
          strField (computeTokenEntry (fun s => s) true [("a", TVal.num 1)] []
            wTheme none none "s" (some wCssVar)).realToken "_tokenKey",
          (computeTokenEntry (fun s => s) true [("a", TVal.num 1)] [] wTheme
            none none "s" (some wCssVar)).cssVarStr) :=
  ⟨rfl, by decide,
   (extract_matches_injection (fun s => s) true [("a", TVal.num 1)] [] wTheme
     none none "s" wCssVar "thek" rfl (by decide) (by decide)).2.1⟩

/-- Claim C1, witness: the amended characterisation at a concrete registry
with one live and one released key — the sweep fires and removes exactly
the released key. -/
theorem cleanTokenStyle_sweeps_iff_live_keys_witness :
    cleanTokenStyle [("live", 5), ("dead", 0)] [] "dead" "i"
      = ([("live", 5)], []) := by
  rw [cleanTokenStyle_sweeps_iff_live_keys [("live", 5), ("dead", 0)] [] "dead" "i"]
  decide

/-- Claim C6, witness: the pipeline equality at a concrete fragment
list. -/
theorem derivedToken_matches_spec_pipeline_witness :
    mergedDerivativeOf (mergedTokens [[("a", TVal.num 1)]]) [] wTheme none none
      = deriveSpecTokens [[("a", TVal.num 1)]] [] wTheme none :=
  derivedToken_matches_spec_pipeline.1 [[("a", TVal.num 1)]] [] wTheme none

/-- Claim C10, witness: the production and non-production identifiers
differ at the identity hash and the concrete token key `"k"`. -/
theorem hashId_prefix_distinguishes_builds_witness :
    hashIdOf (fun s => s) true "k" ≠ hashIdOf (fun s => s) false "k" :=
  hashId_prefix_distinguishes_builds.2.2.1 (fun s => s) "k"

end CssInJs


